import Mathlib

/-!
Verification model of the signature-based carving engine
(`src/core/advanced_carver.py` of cyber-recover-pro).

Bytes are modelled as natural numbers, byte buffers as `List Nat`.
The SHA-256 digest is abstracted as a parameter `hash : List Nat → String`
wherever the code applies `hashlib.sha256(...).hexdigest()`; theorems state
to which bytes that function is applied.  Filesystem effects (directory
creation, the single source read, carved-file writes) are modelled as an
explicit event trace.
-/

namespace Carver

/-- Metadata record attached to one signature: the dictionary value
`{'ext': ..., 'type': ..., 'description': ...}` of `_load_signatures`. -/
structure SigInfo where
  ext : String
  type : String
  description : String
deriving DecidableEq

/-- One signature-table entry: pattern bytes paired with their metadata. -/
abbrev SigEntry := List Nat × SigInfo

/-- The raw key/value pairs of the dict literal in `_load_signatures`,
in source order, including the duplicated key `50 4B 03 04`
(first with zip metadata, later with docx metadata). -/
def rawSignatures : List SigEntry :=
  [ ([0xFF, 0xD8, 0xFF, 0xE0], ⟨"jpg", "image", "JPEG Image"⟩),
    ([0xFF, 0xD8, 0xFF, 0xE1], ⟨"jpg", "image", "JPEG Image (EXIF)"⟩),
    ([0x89, 0x50, 0x4E, 0x47], ⟨"png", "image", "PNG Image"⟩),
    ([0x47, 0x49, 0x46, 0x38], ⟨"gif", "image", "GIF Image"⟩),
    ([0x42, 0x4D], ⟨"bmp", "image", "BMP Image"⟩),
    ([0x49, 0x49, 0x2A, 0x00], ⟨"tif", "image", "TIFF Image"⟩),
    ([0x25, 0x50, 0x44, 0x46], ⟨"pdf", "document", "PDF Document"⟩),
    ([0x50, 0x4B, 0x03, 0x04], ⟨"zip", "archive", "ZIP Archive"⟩),
    ([0x50, 0x4B, 0x05, 0x06], ⟨"zip", "archive", "ZIP Archive (empty)"⟩),
    ([0x50, 0x4B, 0x07, 0x08], ⟨"zip", "archive", "ZIP Archive (spanned)"⟩),
    ([0x52, 0x61, 0x72, 0x21], ⟨"rar", "archive", "RAR Archive"⟩),
    ([0x37, 0x7A, 0xBC, 0xAF], ⟨"7z", "archive", "7-Zip Archive"⟩),
    ([0xD0, 0xCF, 0x11, 0xE0], ⟨"doc", "document", "Microsoft Office"⟩),
    ([0x50, 0x4B, 0x03, 0x04], ⟨"docx", "document", "Microsoft Office (new)"⟩),
    ([0x49, 0x44, 0x33], ⟨"mp3", "audio", "MP3 Audio"⟩),
    ([0xFF, 0xFB], ⟨"mp3", "audio", "MP3 Audio (no ID3)"⟩),
    ([0x52, 0x49, 0x46, 0x46], ⟨"avi", "video", "AVI Video"⟩),
    ([0x66, 0x74, 0x79, 0x70], ⟨"mp4", "video", "MP4 Video"⟩),
    ([0x1A, 0x45, 0xDF, 0xA3], ⟨"mkv", "video", "Matroska Video"⟩),
    ([0x7F, 0x45, 0x4C, 0x46], ⟨"elf", "executable", "ELF Executable"⟩),
    ([0x4D, 0x5A], ⟨"exe", "executable", "Windows Executable"⟩),
    ([0xCA, 0xFE, 0xBA, 0xBE], ⟨"class", "executable", "Java Class"⟩),
    ([0x53, 0x51, 0x4C, 0x69], ⟨"sqlite", "database", "SQLite Database"⟩),
    ([0xEF, 0xBB, 0xBF], ⟨"txt", "text", "UTF-8 Text"⟩),
    ([0xFF, 0xFE], ⟨"txt", "text", "UTF-16 LE Text"⟩),
    ([0xFE, 0xFF], ⟨"txt", "text", "UTF-16 BE Text"⟩) ]

/-- Python dict-literal insertion step: a repeated key keeps its original
position but its value is overwritten; a fresh key is appended. -/
def dictInsert (table : List SigEntry) (e : SigEntry) : List SigEntry :=
  if table.any (fun p => p.1 == e.1) then
    table.map (fun p => if p.1 == e.1 then e else p)
  else
    table ++ [e]

/-- The constructed signature table `self.signatures`: the dict literal of
`_load_signatures` evaluated with Python semantics. -/
def signatures : List SigEntry :=
  rawSignatures.foldl dictInsert []

/-- Dictionary lookup by pattern bytes in the constructed table. -/
def sigLookup (pattern : List Nat) : Option SigInfo :=
  (signatures.find? (fun p => p.1 == pattern)).map (fun p => p.2)

/-- Occurrence test: does `pattern` occur in `data` starting at index `i`? -/
def occPred (data pattern : List Nat) (i : Nat) : Bool :=
  decide (pattern <+: data.drop i)

/-- Model of Python `data.find(pattern, start)`: the least index `i ≥ start`
at which `pattern` occurs in `data` (`none` models the return value -1). -/
def bytesFind (data pattern : List Nat) (start : Nat) : Option Nat :=
  (List.range' start (data.length + 1 - start)).find? (occPred data pattern)

/-- Model of Python `pattern in data` (substring containment). -/
def bytesContains (data pattern : List Nat) : Bool :=
  (bytesFind data pattern 0).isSome

/-- The `while True` loop body of `_find_all_occurrences`: repeatedly call
`find` from `start`, record the hit, and resume at `pos + 1`.  The fuel
argument bounds the iteration count; `data.length + 1` suffices because
each recorded position is at least the previous `start`. -/
def findAllLoop (data pattern : List Nat) : Nat → Nat → List Nat
  | _, 0 => []
  | start, fuel + 1 =>
    match bytesFind data pattern start with
    | none => []
    | some pos => pos :: findAllLoop data pattern (pos + 1) fuel

/-- Model of `_find_all_occurrences(data, pattern)`. -/
def findAllOccurrences (data pattern : List Nat) : List Nat :=
  findAllLoop data pattern 0 (data.length + 1)

/-! Core characterization of the scanner loop. -/

theorem filter_eq_nil_of_find?_eq_none (p : Nat → Bool) (l : List Nat)
    (h : l.find? p = none) : l.filter p = [] := by
  rw [List.filter_eq_nil_iff]
  exact List.find?_eq_none.mp h

theorem filter_range'_of_find?_eq_some (p : Nat → Bool) :
    ∀ (n start pos : Nat), (List.range' start n).find? p = some pos →
      (List.range' start n).filter p =
        pos :: (List.range' (pos + 1) (start + n - (pos + 1))).filter p := by
  intro n
  induction n with
  | zero => intro start pos h; simp at h
  | succ m ih =>
    intro start pos h
    rw [List.range'_succ] at h ⊢
    by_cases hps : p start = true
    · rw [List.find?_cons_of_pos _ hps] at h
      have hpos : pos = start := by
        injection h with h2
        omega
      subst hpos
      rw [List.filter_cons_of_pos hps]
      have harith : pos + (m + 1) - (pos + 1) = m := by omega
      rw [harith]
    · have hps' : ¬ p start = true := hps
      rw [List.find?_cons_of_neg _ hps'] at h
      rw [List.filter_cons_of_neg hps']
      rw [ih (start + 1) pos h]
      have harith : start + 1 + m - (pos + 1) = start + (m + 1) - (pos + 1) := by omega
      rw [harith]

theorem findAllLoop_eq_filter (data pattern : List Nat) :
    ∀ (fuel start : Nat), data.length + 1 ≤ start + fuel →
      findAllLoop data pattern start fuel =
        (List.range' start (data.length + 1 - start)).filter (occPred data pattern) := by
  intro fuel
  induction fuel with
  | zero =>
    intro start h
    have : data.length + 1 - start = 0 := by omega
    rw [this]
    simp [findAllLoop]
  | succ m ih =>
    intro start h
    cases hf : bytesFind data pattern start with
    | none =>
      simp only [findAllLoop, hf]
      exact (filter_eq_nil_of_find?_eq_none _ _ hf).symm
    | some pos =>
      have hmem : pos ∈ List.range' start (data.length + 1 - start) :=
        List.mem_of_find?_eq_some hf
      have hrange := List.mem_range'_1.mp hmem
      simp only [findAllLoop, hf]
      rw [filter_range'_of_find?_eq_some (occPred data pattern) _ _ _ hf]
      have harith : start + (data.length + 1 - start) - (pos + 1) =
          data.length + 1 - (pos + 1) := by omega
      rw [harith]
      have hfuel : data.length + 1 ≤ pos + 1 + m := by
        rcases hrange with ⟨h1, h2⟩
        omega
      rw [ih (pos + 1) hfuel]

theorem findAllOccurrences_eq_filter (data pattern : List Nat) :
    findAllOccurrences data pattern =
      (List.range (data.length + 1)).filter (occPred data pattern) := by
  rw [findAllOccurrences, findAllLoop_eq_filter data pattern (data.length + 1) 0 (by omega)]
  rw [List.range_eq_range', Nat.sub_zero]

theorem mem_findAllOccurrences (data pattern : List Nat) (hp : pattern ≠ []) (i : Nat) :
    i ∈ findAllOccurrences data pattern ↔ pattern <+: data.drop i := by
  rw [findAllOccurrences_eq_filter, List.mem_filter, List.mem_range]
  constructor
  · intro h
    exact of_decide_eq_true h.2
  · intro h
    refine ⟨?_, decide_eq_true h⟩
    have hlen : pattern.length ≤ (data.drop i).length := h.length_le
    rw [List.length_drop] at hlen
    have hplen : 1 ≤ pattern.length := by
      cases pattern with
      | nil => exact absurd rfl hp
      | cons a l => simp
    omega

theorem findAllOccurrences_sorted (data pattern : List Nat) :
    List.Sorted (· < ·) (findAllOccurrences data pattern) := by
  rw [findAllOccurrences_eq_filter]
  exact List.Pairwise.filter _ (List.pairwise_lt_range _)

theorem findAllOccurrences_nil_of_not_contains (data pattern : List Nat)
    (h : bytesContains data pattern = false) :
    findAllOccurrences data pattern = [] := by
  rw [findAllOccurrences_eq_filter, List.filter_eq_nil_iff]
  intro a ha
  have hnone : bytesFind data pattern 0 = none := by
    rcases hopt : bytesFind data pattern 0 with _ | v
    · rfl
    · rw [bytesContains, hopt] at h
      simp at h
  rw [bytesFind] at hnone
  rw [List.find?_eq_none] at hnone
  apply hnone
  rw [List.range_eq_range'] at ha
  simpa using ha

/-! Hex formatting, result records, and the two entry points. -/

/-- A single lowercase hexadecimal digit character for a value below 16. -/
def hexDigit (n : Nat) : Char :=
  if n < 10 then Char.ofNat (48 + n) else Char.ofNat (87 + n)

/-- Two lowercase hex digits for one byte, as produced per byte by Python
`bytes.hex()`. -/
def byteHex (b : Nat) : String :=
  String.mk [hexDigit (b / 16 % 16), hexDigit (b % 16)]

/-- Model of Python `signature.hex()`. -/
def bytesHex (bs : List Nat) : String :=
  String.join (bs.map byteHex)

/-- Most-significant-first hex digit expansion of a natural number
(accumulator form).  The fuel argument bounds the digit count; `n + 1`
units suffice since the value shrinks by a factor of 16 per digit. -/
def toHexCore : Nat → Nat → List Char → List Char
  | 0, _, acc => acc
  | fuel + 1, n, acc =>
    if n / 16 = 0 then hexDigit (n % 16) :: acc
    else toHexCore fuel (n / 16) (hexDigit (n % 16) :: acc)

/-- Model of the Python format specifier `08x` applied to `n`: lowercase
hex digits, left-padded with zeros to a minimum width of 8. -/
def formatHex8 (n : Nat) : String :=
  let ds := toHexCore (n + 1) n []
  String.mk (List.replicate (8 - ds.length) '0' ++ ds)

/-- One row of `found_files` in `quick_scan`. -/
structure FoundFile where
  signature : String
  type : String
  extension : String
  description : String
  position : Nat
  confidence : String
deriving DecidableEq

/-- The dictionary returned by `quick_scan`. -/
structure ScanResult where
  source : String
  size_bytes : Nat
  files_found : List FoundFile
  scan_type : String
  total_signatures : Nat
deriving DecidableEq

/-- One row of `recovered_files` in `deep_carve`. -/
structure RecoveredFile where
  filename : String
  type : String
  extension : String
  size : Nat
  hash_sha256 : String
  original_position : Nat
  description : String
deriving DecidableEq

/-- The dictionary returned by `deep_carve`. -/
structure CarveResult where
  recovered_files : List RecoveredFile
  total_recovered : Nat
  output_directory : String
deriving DecidableEq

/-- Observable filesystem effects of one engine call, in program order. -/
inductive FsEvent where
  | mkdir (dir : String)
  | readSource
  | writeFile (path : String) (content : List Nat)
deriving DecidableEq

/-- The result row `quick_scan` appends for signature entry `si` matched at
offset `pos`. -/
def mkFoundFile (si : SigEntry) (pos : Nat) : FoundFile :=
  { signature := bytesHex si.1, type := si.2.type, extension := si.2.ext,
    description := si.2.description, position := pos, confidence := ("high") }

/-- The scanner pass of `quick_scan` over an in-memory buffer: for each
table entry in order, if the pattern occurs at all, append one row per
occurrence in ascending-offset order. -/
def quickScanFound (data : List Nat) : List FoundFile :=
  signatures.flatMap (fun si =>
    if bytesContains data si.1 then
      (findAllOccurrences data si.1).map (mkFoundFile si)
    else [])

/-- Model of `quick_scan`: `source = none` models a path that fails the
`os.path.exists` check (the raised `FileNotFoundError` becomes an
`Except.error`); otherwise the first 1 MiB of the source is read and
scanned.  The first component is the filesystem-event trace. -/
def quickScan (sourcePath : String) (source : Option (List Nat)) :
    List FsEvent × Except String ScanResult :=
  match source with
  | none => ([], Except.error ("FileNotFoundError"))
  | some data =>
    let found := quickScanFound (data.take (1024 * 1024))
    ([FsEvent.readSource],
     Except.ok { source := sourcePath, size_bytes := data.length, files_found := found,
                 scan_type := ("quick"), total_signatures := found.length })

/-- Model of `_extract_file_data`: an unconditional slice from `position`
whose cap depends only on the extension string (the `signature` argument
is unused in the source as well). -/
def extractFileData (data : List Nat) (position : Nat) (_signature : List Nat)
    (extension : String) : List Nat :=
  if extension ∈ ["jpg", "png", "gif"] then
    (data.drop position).take (1024 * 1024)
  else if extension ∈ ["pdf", "docx"] then
    (data.drop position).take (10 * 1024 * 1024)
  else if extension ∈ ["zip", "rar"] then
    (data.drop position).take (5 * 1024 * 1024)
  else
    (data.drop position).take (512 * 1024)

/-- The per-extension size cap implemented by `_extract_file_data`. -/
def capFor (extension : String) : Nat :=
  if extension ∈ ["jpg", "png", "gif"] then 1024 * 1024
  else if extension ∈ ["pdf", "docx"] then 10 * 1024 * 1024
  else if extension ∈ ["zip", "rar"] then 5 * 1024 * 1024
  else 512 * 1024

theorem extractFileData_eq_take_cap (data : List Nat) (position : Nat)
    (sig : List Nat) (extension : String) :
    extractFileData data position sig extension =
      (data.drop position).take (capFor extension) := by
  unfold extractFileData capFor
  split_ifs <;> rfl

/-- The f-string `carved_{info['ext']}_{pos:08x}_{i}.{info['ext']}` of
`deep_carve`, for entry `si`, match offset `pos` and per-entry index `i`. -/
def carveFilename (si : SigEntry) (pos i : Nat) : String :=
  ("carved_") ++ si.2.ext ++ ("_") ++ formatHex8 pos ++ ("_") ++
    toString i ++ (".") ++ si.2.ext

/-- One iteration of the inner loop of `deep_carve` at the enumerated
occurrence `ip = (i, pos)` of entry `si`: extract the capped slice; if it
is nonempty (Python truthiness of `file_data`), derive the filename and
produce the pending write together with the result row.  The digest
function is a parameter standing for SHA-256. -/
def carveStep (hash : List Nat → String) (data : List Nat) (si : SigEntry)
    (ip : Nat × Nat) : Option ((String × List Nat) × RecoveredFile) :=
  let fileData := extractFileData data ip.2 si.1 si.2.ext
  if fileData = [] then none
  else
    let filename := carveFilename si ip.2 ip.1
    some ((filename, fileData),
      { filename := filename, type := si.2.type, extension := si.2.ext,
        size := fileData.length, hash_sha256 := hash fileData,
        original_position := ip.2, description := si.2.description })

/-- The full double loop of `deep_carve`: for each table entry in order,
for each occurrence with its 0-based per-entry index (Python
`enumerate`), run `carveStep`. -/
def carveItems (hash : List Nat → String) (data : List Nat) :
    List ((String × List Nat) × RecoveredFile) :=
  signatures.flatMap (fun si =>
    ((findAllOccurrences data si.1).enum).filterMap (carveStep hash data si))

/-- Model of `deep_carve`: the output directory is created first
(`mkdir(parents=True, exist_ok=True)`); only then is the source touched,
so a missing source (`none`) fails from `os.path.getsize` with
`FileNotFoundError` after the directory was already created and before any
read.  On success the whole source is read and every carved slice is
written under `outputDir`. -/
def deepCarve (hash : List Nat → String) (source : Option (List Nat)) (outputDir : String) :
    List FsEvent × Except String CarveResult :=
  match source with
  | none => ([FsEvent.mkdir outputDir], Except.error ("FileNotFoundError"))
  | some data =>
    let items := carveItems hash data
    ([FsEvent.mkdir outputDir, FsEvent.readSource] ++
       items.map (fun it => FsEvent.writeFile (outputDir ++ ("/") ++ it.1.1) it.1.2),
     Except.ok { recovered_files := items.map (fun it => it.2),
                 total_recovered := (items.map (fun it => it.2)).length,
                 output_directory := outputDir })

/-! Facts about the concrete signature table. -/

theorem signatures_patterns_nonempty : ∀ si ∈ signatures, si.1 ≠ [] := by decide

theorem signatures_pattern_length_le : ∀ si ∈ signatures, si.1.length ≤ 4 := by decide

theorem capFor_pos (extension : String) : 0 < capFor extension := by
  unfold capFor
  split_ifs <;> norm_num

theorem le_capFor (extension : String) : 512 * 1024 ≤ capFor extension := by
  unfold capFor
  split_ifs <;> norm_num

/-- The `if signature in data` guard of `quick_scan` is redundant: when the
containment test fails the occurrence list is empty anyway, so the scan
output is the plain double loop over the table. -/
theorem quickScanFound_eq (data : List Nat) :
    quickScanFound data =
      signatures.flatMap (fun si => (findAllOccurrences data si.1).map (mkFoundFile si)) := by
  unfold quickScanFound
  apply List.flatMap_congr
  intro si _
  by_cases hc : bytesContains data si.1
  · rw [if_pos hc]
  · rw [if_neg hc]
    rw [findAllOccurrences_nil_of_not_contains data si.1 (by simpa using hc)]
    simp

/-! Properties of the hex formatting. -/

theorem hexDigit_mem_hexChars : ∀ m : Nat, m < 16 → hexDigit m ∈ ("0123456789abcdef").data := by
  decide

theorem toHexCore_chars :
    ∀ (fuel n : Nat) (acc : List Char), (∀ c ∈ acc, c ∈ ("0123456789abcdef").data) →
      ∀ c ∈ toHexCore fuel n acc, c ∈ ("0123456789abcdef").data := by
  intro fuel
  induction fuel with
  | zero => intro n acc hacc c hc; exact hacc c hc
  | succ f ih =>
    intro n acc hacc c hc
    simp only [toHexCore] at hc
    split at hc
    · rcases List.mem_cons.mp hc with h | h
      · subst h
        exact hexDigit_mem_hexChars _ (Nat.mod_lt _ (by omega))
      · exact hacc c h
    · refine ih (n / 16) (hexDigit (n % 16) :: acc) ?_ c hc
      intro d hd
      rcases List.mem_cons.mp hd with h | h
      · subst h
        exact hexDigit_mem_hexChars _ (Nat.mod_lt _ (by omega))
      · exact hacc d h

theorem toHexCore_length_ge :
    ∀ (fuel n : Nat) (acc : List Char), acc.length ≤ (toHexCore fuel n acc).length := by
  intro fuel
  induction fuel with
  | zero => intro n acc; simp [toHexCore]
  | succ f ih =>
    intro n acc
    simp only [toHexCore]
    split
    · simp
    · have := ih (n / 16) (hexDigit (n % 16) :: acc)
      simp only [List.length_cons] at this
      omega

theorem toHexCore_length_pos (fuel n : Nat) (acc : List Char) :
    acc.length + 1 ≤ (toHexCore (fuel + 1) n acc).length := by
  simp only [toHexCore]
  split
  · simp
  · have := toHexCore_length_ge fuel (n / 16) (hexDigit (n % 16) :: acc)
    simp only [List.length_cons] at this
    omega

theorem toHexCore_length_le :
    ∀ (fuel k n : Nat) (acc : List Char), n < 16 ^ (k + 1) →
      (toHexCore fuel n acc).length ≤ (k + 1) + acc.length := by
  intro fuel
  induction fuel with
  | zero =>
    intro k n acc hn
    simp only [toHexCore]
    omega
  | succ f ih =>
    intro k n acc hn
    simp only [toHexCore]
    split
    · simp only [List.length_cons]
      omega
    · rename_i hdiv
      cases k with
      | zero => exact absurd (Nat.div_eq_of_lt (by simpa using hn)) hdiv
      | succ m =>
        have hlt : n / 16 < 16 ^ (m + 1) := by
          rw [Nat.div_lt_iff_lt_mul (by omega)]
          calc n < 16 ^ (m + 1 + 1) := hn
          _ = 16 ^ (m + 1) * 16 := by rw [Nat.pow_succ]
        have := ih m (n / 16) (hexDigit (n % 16) :: acc) hlt
        simp only [List.length_cons] at this
        omega

theorem formatHex8_length (n : Nat) (hn : n < 16 ^ 8) : (formatHex8 n).length = 8 := by
  unfold formatHex8
  have hle : (toHexCore (n + 1) n []).length ≤ 8 := by
    have := toHexCore_length_le (n + 1) 7 n [] hn
    simpa using this
  have hpos : 1 ≤ (toHexCore (n + 1) n []).length := by
    have := toHexCore_length_pos n n []
    simpa using this
  show (List.replicate (8 - (toHexCore (n + 1) n []).length) '0' ++
    toHexCore (n + 1) n []).length = 8
  rw [List.length_append, List.length_replicate]
  omega

theorem formatHex8_chars (n : Nat) :
    ∀ c ∈ (formatHex8 n).data, c ∈ ("0123456789abcdef").data := by
  intro c hc
  have hc' : c ∈ List.replicate (8 - (toHexCore (n + 1) n []).length) '0' ++
      toHexCore (n + 1) n [] := hc
  rcases List.mem_append.mp hc' with h | h
  · have : c = '0' := List.eq_of_mem_replicate h
    subst this
    decide
  · exact toHexCore_chars (n + 1) n [] (by simp) c h

/-! Membership of one carved item in the deep-carve output. -/

theorem carveStep_eq_some (hash : List Nat → String) (data : List Nat) (si : SigEntry)
    (i pos : Nat) (hne : extractFileData data pos si.1 si.2.ext ≠ []) :
    carveStep hash data si (i, pos) =
      some ((carveFilename si pos i, extractFileData data pos si.1 si.2.ext),
        ⟨carveFilename si pos i, si.2.type, si.2.ext,
         (extractFileData data pos si.1 si.2.ext).length,
         hash (extractFileData data pos si.1 si.2.ext), pos, si.2.description⟩) := by
  simp only [carveStep]
  rw [if_neg hne]

theorem mem_carveItems (hash : List Nat → String) (data : List Nat) (si : SigEntry)
    (hsi : si ∈ signatures) (i pos : Nat)
    (henum : (i, pos) ∈ (findAllOccurrences data si.1).enum)
    (hne : extractFileData data pos si.1 si.2.ext ≠ []) :
    ((carveFilename si pos i, extractFileData data pos si.1 si.2.ext),
      (⟨carveFilename si pos i, si.2.type, si.2.ext,
        (extractFileData data pos si.1 si.2.ext).length,
        hash (extractFileData data pos si.1 si.2.ext), pos, si.2.description⟩ :
          RecoveredFile)) ∈ carveItems hash data := by
  unfold carveItems
  exact List.mem_flatMap.mpr
    ⟨si, hsi, List.mem_filterMap.mpr
      ⟨(i, pos), henum, carveStep_eq_some hash data si i pos hne⟩⟩

/-! Claim theorems. -/

/-- Claim C1: for every byte buffer and every entry of the signature table
(all table patterns are nonempty, which the hypothesis records), the
scanner reports an occurrence at exactly the set of offsets at which the
pattern occurs as a substring of the buffer — overlapping and adjacent
occurrences included, and no occurrence at all when the buffer is shorter
than the pattern — with per-pattern offsets strictly ascending, and the
reported row sequence of a scan is the concatenation, in signature-table
insertion order, of those per-pattern occurrence lists. -/
theorem claim_C1_scanner_exact (data pattern : List Nat) (hp : pattern ≠ []) :
    (∀ i, i ∈ findAllOccurrences data pattern ↔ pattern <+: data.drop i) ∧
    List.Sorted (· < ·) (findAllOccurrences data pattern) ∧
    quickScanFound data =
      signatures.flatMap (fun si => (findAllOccurrences data si.1).map (mkFoundFile si)) :=
  ⟨mem_findAllOccurrences data pattern hp, findAllOccurrences_sorted data pattern,
   quickScanFound_eq data⟩

/-- Witness for C1 at a concrete buffer and pattern. -/
theorem claim_C1_scanner_exact_witness :
    (1 ∈ findAllOccurrences [0, 0xFF, 0xD8] [0xFF, 0xD8] ↔
      [0xFF, 0xD8] <+: List.drop 1 [0, 0xFF, 0xD8]) :=
  (claim_C1_scanner_exact [0, 0xFF, 0xD8] [0xFF, 0xD8] (by decide)).1 1

/-- Claim C4: the two dict entries registered with the identical pattern
bytes 50 4B 03 04 (zip first, docx second) collapse during construction:
lookup of that pattern returns only the docx metadata, the constructed
table holds exactly one entry under that pattern, and scanning a buffer
containing that pattern produces exactly one occurrence row (docx). -/
theorem claim_C4_duplicate_pattern :
    sigLookup [0x50, 0x4B, 0x03, 0x04] =
      some ⟨"docx", "document", "Microsoft Office (new)"⟩ ∧
    (signatures.filter (fun si => si.1 == [0x50, 0x4B, 0x03, 0x04])).length = 1 ∧
    (quickScan ("src") (some [0x50, 0x4B, 0x03, 0x04])).2 =
      Except.ok ⟨("src"), 4,
        [⟨("504b0304"), ("document"), ("docx"), ("Microsoft Office (new)"), 0, ("high")⟩],
        ("quick"), 1⟩ := by
  refine ⟨by decide, by decide, rfl⟩

/-- Claim C5: a missing source path makes both entry points fail with the
FileNotFoundError precondition failure, before any read of the source and
with no scan attempted (the traces contain no source read). -/
theorem claim_C5_missing_source (hash : List Nat → String) (sourcePath outputDir : String) :
    quickScan sourcePath none = ([], Except.error ("FileNotFoundError")) ∧
    deepCarve hash none outputDir =
      ([FsEvent.mkdir outputDir], Except.error ("FileNotFoundError")) ∧
    FsEvent.readSource ∉ (quickScan sourcePath none).1 ∧
    FsEvent.readSource ∉ (deepCarve hash none outputDir).1 :=
  ⟨rfl, rfl, by simp [quickScan], by simp [deepCarve]⟩

/-- Claim C6: deep-carving the same source bytes into two different output
directories yields identical result rows (same sizes, digests, offsets and
derived filenames) and writes the same named contents, the paths differing
only in the directory prefix: the carve output is a deterministic function
of the source bytes and the table's stable iteration order. -/
theorem claim_C6_output_dir_independent (hash : List Nat → String) (data : List Nat)
    (d1 d2 : String) :
    ∃ res1 res2 : CarveResult,
      (deepCarve hash (some data) d1).2 = Except.ok res1 ∧
      (deepCarve hash (some data) d2).2 = Except.ok res2 ∧
      res1.recovered_files = res2.recovered_files ∧
      res1.total_recovered = res2.total_recovered ∧
      ∃ pairs : List (String × List Nat),
        (deepCarve hash (some data) d1).1 =
          [FsEvent.mkdir d1, FsEvent.readSource] ++
            pairs.map (fun nc => FsEvent.writeFile (d1 ++ ("/") ++ nc.1) nc.2) ∧
        (deepCarve hash (some data) d2).1 =
          [FsEvent.mkdir d2, FsEvent.readSource] ++
            pairs.map (fun nc => FsEvent.writeFile (d2 ++ ("/") ++ nc.1) nc.2) := by
  refine ⟨_, _, rfl, rfl, rfl, rfl, (carveItems hash data).map (fun it => it.1), ?_, ?_⟩
  · show _ = _
    rw [List.map_map]
    rfl
  · show _ = _
    rw [List.map_map]
    rfl

/-- Claim C9: an existing empty (0-byte) source yields an empty scan
result with zero found signatures and an empty carve result with zero
recovered files, and neither call fails. -/
theorem claim_C9_empty_source (hash : List Nat → String) :
    (quickScan ("empty") (some [])).2 =
      Except.ok ⟨("empty"), 0, [], ("quick"), 0⟩ ∧
    (deepCarve hash (some []) ("out")).2 =
      Except.ok ⟨[], 0, ("out")⟩ :=
  ⟨rfl, rfl⟩

/-- Claim C10: deep_carve creates the output directory before it touches
the source at all, so even for a missing source the directory-creation
side effect has happened when the call fails; on an existing source the
mkdir event likewise precedes everything else in the trace. -/
theorem claim_C10_mkdir_before_source_check (hash : List Nat → String) (outputDir : String) :
    (deepCarve hash none outputDir).1 = [FsEvent.mkdir outputDir] ∧
    (deepCarve hash none outputDir).2 = Except.error ("FileNotFoundError") ∧
    ∀ data : List Nat,
      ((deepCarve hash (some data) outputDir).1).head? = some (FsEvent.mkdir outputDir) :=
  ⟨rfl, rfl, fun _ => rfl⟩

/-- Counterexample to C3 as stated: the bmp entry has category image, yet
its extraction length on a buffer longer than 512 KiB differs from the
1 MiB image cap the claim asserts — the code caps bmp (and tif) at the
512 KiB default because the cap is keyed by extension, not category. -/
theorem claim_C3_counterexample :
    sigLookup [0x42, 0x4D] = some ⟨"bmp", "image", "BMP Image"⟩ ∧
    (extractFileData (List.replicate 524289 0) 0 [0x42, 0x4D] ("bmp")).length ≠
      min (1024 * 1024) ((List.replicate 524289 (0 : Nat)).length - 0) := by
  constructor
  · decide
  · rw [extractFileData_eq_take_cap, List.length_take, List.length_drop,
      List.length_replicate]
    have hcap : capFor ("bmp") = 512 * 1024 := by decide
    rw [hcap]
    omega

/-- Claim C3 (amended): extraction returns an unconditional fixed-length
slice starting at the offset and clipped to the buffer end, with no footer
or terminator detection of any kind; the cap is keyed by extension rather
than category: 1 MiB for jpg, png and gif, 10 MiB for pdf and docx, 5 MiB
for zip and rar, and 512 KiB for every other extension — in particular the
image-category entries bmp and tif fall under the 512 KiB default. -/
theorem claim_C3_extraction_policy (data : List Nat) (position : Nat) (sig : List Nat)
    (extension : String) :
    extractFileData data position sig extension =
      (data.drop position).take (capFor extension) ∧
    (extractFileData data position sig extension).length =
      min (capFor extension) (data.length - position) ∧
    capFor ("jpg") = 1024 * 1024 ∧ capFor ("png") = 1024 * 1024 ∧
    capFor ("gif") = 1024 * 1024 ∧ capFor ("pdf") = 10 * 1024 * 1024 ∧
    capFor ("docx") = 10 * 1024 * 1024 ∧ capFor ("zip") = 5 * 1024 * 1024 ∧
    capFor ("rar") = 5 * 1024 * 1024 ∧ capFor ("bmp") = 512 * 1024 ∧
    capFor ("tif") = 512 * 1024 ∧ capFor ("doc") = 512 * 1024 ∧
    capFor ("7z") = 512 * 1024 := by
  refine ⟨extractFileData_eq_take_cap data position sig extension, ?_,
    by decide, by decide, by decide, by decide, by decide, by decide,
    by decide, by decide, by decide, by decide, by decide⟩
  rw [extractFileData_eq_take_cap, List.length_take, List.length_drop]

/-- Claim C7: quick_scan reads only the first 1 MiB of the source before
scanning: its trace is the single source read (no writes), its result rows
are exactly the scan of that bounded prefix — so occurrences lying
entirely beyond the prefix are not reported — and every reported offset
lies strictly inside the prefix. -/
theorem claim_C7_bounded_prefix (sourcePath : String) (data : List Nat) (row : FoundFile)
    (hrow : row ∈ quickScanFound (data.take (1024 * 1024))) :
    row.position < 1024 * 1024 ∧
    (quickScan sourcePath (some data)).1 = [FsEvent.readSource] ∧
    (quickScan sourcePath (some data)).2 =
      Except.ok ⟨sourcePath, data.length, quickScanFound (data.take (1024 * 1024)),
        ("quick"), (quickScanFound (data.take (1024 * 1024))).length⟩ := by
  refine ⟨?_, rfl, rfl⟩
  rw [quickScanFound_eq] at hrow
  rcases List.mem_flatMap.mp hrow with ⟨si, hsi, hmap⟩
  rcases List.mem_map.mp hmap with ⟨pos, hpos, hrow_eq⟩
  have hp : si.1 ≠ [] := signatures_patterns_nonempty si hsi
  have hocc : si.1 <+: (data.take (1024 * 1024)).drop pos :=
    (mem_findAllOccurrences _ _ hp pos).mp hpos
  have hlen : si.1.length ≤ ((data.take (1024 * 1024)).drop pos).length := hocc.length_le
  rw [List.length_drop, List.length_take] at hlen
  have hplen : 1 ≤ si.1.length := by
    cases hsig : si.1 with
    | nil => exact absurd hsig hp
    | cons a l => simp
  have hpr : row.position = pos := by rw [← hrow_eq]; rfl
  rw [hpr]
  omega

/-- Witness for C7 at a concrete four-byte source containing one JPEG
signature. -/
theorem claim_C7_bounded_prefix_witness :
    (⟨("ffd8ffe0"), ("image"), ("jpg"), ("JPEG Image"), 0, ("high")⟩ : FoundFile).position <
      1024 * 1024 ∧
    (quickScan ("s") (some [0xFF, 0xD8, 0xFF, 0xE0])).1 = [FsEvent.readSource] ∧
    (quickScan ("s") (some [0xFF, 0xD8, 0xFF, 0xE0])).2 =
      Except.ok ⟨("s"), (List.length [0xFF, 0xD8, 0xFF, 0xE0]),
        quickScanFound (List.take (1024 * 1024) [0xFF, 0xD8, 0xFF, 0xE0]),
        ("quick"), (quickScanFound (List.take (1024 * 1024) [0xFF, 0xD8, 0xFF, 0xE0])).length⟩ :=
  claim_C7_bounded_prefix ("s") [0xFF, 0xD8, 0xFF, 0xE0]
    ⟨("ffd8ffe0"), ("image"), ("jpg"), ("JPEG Image"), 0, ("high")⟩ (by decide)

/-- Claim C2: each occurrence of a table pattern at offset o is carved as
exactly the buffer slice from o of length min(cap, L - o): the recorded
size is that length, the recorded digest is the digest function applied to
exactly that slice, the slice's first pattern-length bytes are the pattern
itself, and the very same slice is the content written to disk. -/
theorem claim_C2_carve_slice (hash : List Nat → String) (data : List Nat) (outputDir : String)
    (si : SigEntry) (hsi : si ∈ signatures) (o : Nat) (ho : si.1 <+: data.drop o) :
    ∃ res : CarveResult, (deepCarve hash (some data) outputDir).2 = Except.ok res ∧
      ∃ rec ∈ res.recovered_files,
        rec.original_position = o ∧
        rec.extension = si.2.ext ∧
        rec.size = min (capFor si.2.ext) (data.length - o) ∧
        rec.hash_sha256 = hash ((data.drop o).take (capFor si.2.ext)) ∧
        ((data.drop o).take (capFor si.2.ext)).take si.1.length = si.1 ∧
        FsEvent.writeFile (outputDir ++ ("/") ++ rec.filename)
            ((data.drop o).take (capFor si.2.ext)) ∈
          (deepCarve hash (some data) outputDir).1 := by
  have hp : si.1 ≠ [] := signatures_patterns_nonempty si hsi
  have hplen : 1 ≤ si.1.length := by
    cases hsig : si.1 with
    | nil => exact absurd hsig hp
    | cons a l => simp
  have hLo : si.1.length ≤ data.length - o := by
    have hl := ho.length_le
    rw [List.length_drop] at hl
    exact hl
  have hocc : o ∈ findAllOccurrences data si.1 :=
    (mem_findAllOccurrences data si.1 hp o).mpr ho
  rcases List.mem_iff_getElem?.mp hocc with ⟨i, hi⟩
  have henum : (i, o) ∈ (findAllOccurrences data si.1).enum :=
    List.mem_enum_iff_getElem?.mpr hi
  have hextract : extractFileData data o si.1 si.2.ext =
      (data.drop o).take (capFor si.2.ext) := extractFileData_eq_take_cap data o si.1 si.2.ext
  have hlen_slice : ((data.drop o).take (capFor si.2.ext)).length =
      min (capFor si.2.ext) (data.length - o) := by
    rw [List.length_take, List.length_drop]
  have hne : extractFileData data o si.1 si.2.ext ≠ [] := by
    rw [hextract, ← List.length_pos, hlen_slice]
    have hcap := capFor_pos si.2.ext
    omega
  refine ⟨_, rfl, ?_⟩
  refine ⟨⟨carveFilename si o i, si.2.type, si.2.ext,
      (extractFileData data o si.1 si.2.ext).length,
      hash (extractFileData data o si.1 si.2.ext), o, si.2.description⟩,
    ?_, rfl, rfl, ?_, ?_, ?_, ?_⟩
  · exact List.mem_map.mpr ⟨_, mem_carveItems hash data si hsi i o henum hne, rfl⟩
  · show (extractFileData data o si.1 si.2.ext).length = _
    rw [hextract, hlen_slice]
  · show hash (extractFileData data o si.1 si.2.ext) = _
    rw [hextract]
  · rw [List.take_take]
    have hmin : si.1.length ⊓ capFor si.2.ext = si.1.length := by
      have h4 : si.1.length ≤ 4 := signatures_pattern_length_le si hsi
      have hc := le_capFor si.2.ext
      omega
    rw [hmin]
    exact (List.prefix_iff_eq_take.mp ho).symm
  · show FsEvent.writeFile _ _ ∈
      [FsEvent.mkdir outputDir, FsEvent.readSource] ++
        (carveItems hash data).map
          (fun it => FsEvent.writeFile (outputDir ++ ("/") ++ it.1.1) it.1.2)
    refine List.mem_append.mpr (Or.inr ?_)
    refine List.mem_map.mpr ⟨_, mem_carveItems hash data si hsi i o henum hne, ?_⟩
    rw [hextract]

/-- Witness for C2: a five-byte buffer holding the JPEG signature at
offset 0 followed by one filler byte. -/
theorem claim_C2_carve_slice_witness :
    ∃ res : CarveResult,
      (deepCarve (fun _ => ("h")) (some [0xFF, 0xD8, 0xFF, 0xE0, 0x41]) ("o")).2 =
        Except.ok res ∧
      ∃ rec ∈ res.recovered_files,
        rec.original_position = 0 ∧
        rec.extension = ("jpg") ∧
        rec.size = min (capFor ("jpg"))
          (List.length ([0xFF, 0xD8, 0xFF, 0xE0, 0x41] : List Nat) - 0) ∧
        rec.hash_sha256 = (fun _ => ("h"))
          ((([0xFF, 0xD8, 0xFF, 0xE0, 0x41] : List Nat).drop 0).take (capFor ("jpg"))) ∧
        ((([0xFF, 0xD8, 0xFF, 0xE0, 0x41] : List Nat).drop 0).take (capFor ("jpg"))).take
            (List.length ([0xFF, 0xD8, 0xFF, 0xE0] : List Nat)) =
          [0xFF, 0xD8, 0xFF, 0xE0] ∧
        FsEvent.writeFile (("o") ++ ("/") ++ rec.filename)
            ((([0xFF, 0xD8, 0xFF, 0xE0, 0x41] : List Nat).drop 0).take (capFor ("jpg"))) ∈
          (deepCarve (fun _ => ("h")) (some [0xFF, 0xD8, 0xFF, 0xE0, 0x41]) ("o")).1 :=
  claim_C2_carve_slice (fun _ => ("h")) [0xFF, 0xD8, 0xFF, 0xE0, 0x41] ("o")
    ([0xFF, 0xD8, 0xFF, 0xE0], ⟨("jpg"), ("image"), ("JPEG Image")⟩)
    (by decide) 0 (by decide)

/-- Claim C8: every file recovered by deep_carve is named
carved_EXT_OFFSET_INDEX.EXT where OFFSET is the occurrence offset rendered
by the 08x format (lowercase hex, zero-padded to 8 digits for offsets
below 16^8) and INDEX is the 0-based position of the occurrence within its
own signature's occurrence list, not a global counter. -/
theorem claim_C8_filename_format (hash : List Nat → String) (data : List Nat)
    (outputDir : String) (res : CarveResult)
    (hres : (deepCarve hash (some data) outputDir).2 = Except.ok res)
    (rec : RecoveredFile) (hrec : rec ∈ res.recovered_files) :
    ∃ si ∈ signatures, ∃ i pos : Nat,
      (findAllOccurrences data si.1)[i]? = some pos ∧
      rec.original_position = pos ∧
      rec.filename = ("carved_") ++ si.2.ext ++ ("_") ++ formatHex8 pos ++ ("_") ++
        toString i ++ (".") ++ si.2.ext ∧
      (pos < 16 ^ 8 → (formatHex8 pos).length = 8) ∧
      (∀ c ∈ (formatHex8 pos).data, c ∈ ("0123456789abcdef").data) := by
  have hres' : res =
      ⟨(carveItems hash data).map (fun it => it.2),
       ((carveItems hash data).map (fun it => it.2)).length, outputDir⟩ := by
    have : Except.ok ((⟨(carveItems hash data).map (fun it => it.2),
        ((carveItems hash data).map (fun it => it.2)).length, outputDir⟩ : CarveResult)) =
        Except.ok res := hres
    injection this with h
    exact h.symm
  subst hres'
  rcases List.mem_map.mp hrec with ⟨item, hitem, heq⟩
  rcases List.mem_flatMap.mp hitem with ⟨si, hsi, hfm⟩
  rcases List.mem_filterMap.mp hfm with ⟨ip, hip, hstep⟩
  simp only [carveStep] at hstep
  split at hstep
  · exact absurd hstep (by simp)
  · injection hstep with hstep'
    refine ⟨si, hsi, ip.1, ip.2, List.mem_enum_iff_getElem?.mp hip, ?_, ?_,
      fun h => formatHex8_length ip.2 h, formatHex8_chars ip.2⟩
    · rw [← heq, ← hstep']
    · rw [← heq, ← hstep']
      rfl

/-- Witness for C8: the carve of a four-byte buffer equal to the JPEG
signature yields one file named carved_jpg_00000000_0.jpg. -/
theorem claim_C8_filename_format_witness :
    ∃ si ∈ signatures, ∃ i pos : Nat,
      (findAllOccurrences [0xFF, 0xD8, 0xFF, 0xE0] si.1)[i]? = some pos ∧
      (⟨("carved_jpg_00000000_0.jpg"), ("image"), ("jpg"), 4, ("h"), 0,
        ("JPEG Image")⟩ : RecoveredFile).original_position = pos ∧
      (⟨("carved_jpg_00000000_0.jpg"), ("image"), ("jpg"), 4, ("h"), 0,
        ("JPEG Image")⟩ : RecoveredFile).filename =
        ("carved_") ++ si.2.ext ++ ("_") ++ formatHex8 pos ++ ("_") ++
          toString i ++ (".") ++ si.2.ext ∧
      (pos < 16 ^ 8 → (formatHex8 pos).length = 8) ∧
      (∀ c ∈ (formatHex8 pos).data, c ∈ ("0123456789abcdef").data) :=
  claim_C8_filename_format (fun _ => ("h")) [0xFF, 0xD8, 0xFF, 0xE0] ("o")
    ⟨[⟨("carved_jpg_00000000_0.jpg"), ("image"), ("jpg"), 4, ("h"), 0, ("JPEG Image")⟩],
      1, ("o")⟩ (by rfl)
    ⟨("carved_jpg_00000000_0.jpg"), ("image"), ("jpg"), 4, ("h"), 0, ("JPEG Image")⟩
    (by decide)

end Carver
